import Mathlib

/-!
Verification of the fitness-tracker core (`smart_ai_fitness_upgraded.py`).

Strings are modelled as Lean `String` / `List Char` (the program only ever
compares ASCII text); real arithmetic is modelled over `ℚ`; Python's
`round(x, 2)` is modelled by `round2`; functions that can raise are modelled
with `Except FitnessError`.
-/

/-- Error taxonomy of the program. `missingDuration` and `unknownActivity`
model the two `ValueError`s raised by `parse_input`; `zeroDivision` models the
`ZeroDivisionError` Python raises when `calculate_bmi` divides by zero. -/
inductive FitnessError where
  | missingDuration
  | unknownActivity
  | zeroDivision
  deriving DecidableEq, Repr

/-- ASCII whitespace recognised by the regex class `\s` (and by `str.strip`). -/
def isSpaceChar (c : Char) : Bool :=
  c == ' ' || c == '\t' || c == '\n' || c == '\r' || c == '\x0b' || c == '\x0c'

/-- Lowercasing of a character list, modelling Python `str.lower` on ASCII text. -/
def lowerChars (l : List Char) : List Char :=
  l.map Char.toLower

/-- Stripping leading and trailing whitespace, modelling Python `str.strip`. -/
def stripChars (l : List Char) : List Char :=
  ((l.dropWhile isSpaceChar).reverse.dropWhile isSpaceChar).reverse

/-- Boolean test that `p` is an initial segment of `l`. -/
def listStartsWith : List Char → List Char → Bool
  | [], _ => true
  | _ :: _, [] => false
  | c :: cs, d :: ds => c == d && listStartsWith cs ds

/-- Boolean substring test, modelling Python `needle in hay` on strings. -/
def listSubstr (needle : List Char) : List Char → Bool
  | [] => listStartsWith needle []
  | c :: tl => listStartsWith needle (c :: tl) || listSubstr needle tl

/-- Numeric value of a digit string, modelling Python `int` on the matched group. -/
def digitsToNat (ds : List Char) : Nat :=
  ds.foldl (fun n c => 10 * n + (c.toNat - 48)) 0

/-- Characters of the literal token `min`, the part of the regex alternative
`(min|minutes?)` that every alternative begins with. -/
def minTok : List Char := ['m', 'i', 'n']

/-- Attempted match of the regex `(\d+)\s*(min|minutes?)` anchored at the head
of `cs`, returning the first capture group (the digit run).  A match anchored
here must consist of the maximal digit run, then the maximal whitespace run,
then the literal `min` (the alternative `min` subsumes `minutes?` for
matching purposes, and `\d+`/`\s*` cannot profitably backtrack because the
follow-set characters are not digits/whitespace). -/
def matchDurationHere (cs : List Char) : Option (List Char) :=
  if (cs.takeWhile Char.isDigit).isEmpty then none
  else if listStartsWith minTok ((cs.dropWhile Char.isDigit).dropWhile isSpaceChar) then
    some (cs.takeWhile Char.isDigit)
  else none

/-- Leftmost match of `(\d+)\s*(min|minutes?)`, modelling `re.search`: try each
start position from the left and return the first capture group of the first
position that matches. -/
def findDurationDigits : List Char → Option (List Char)
  | [] => none
  | c :: tl =>
    match matchDurationHere (c :: tl) with
    | some ds => some ds
    | none => findDurationDigits tl

/-- Activity Catalog `MET_VALUES`, in source (insertion) order. -/
def MET_VALUES : List (String × ℚ) :=
  [("walking", 3.5), ("running", 7.5), ("cycling", 6.8), ("swimming", 5.8),
   ("yoga", 2.5), ("weights", 4.0), ("dancing", 5.0), ("aerobics", 6.0),
   ("hiking", 6.0), ("jumping rope", 10.0), ("rowing", 7.0), ("riding", 4.5),
   ("skating", 7.0), ("football", 8.0), ("basketball", 6.5)]

/-- Keys of the Activity Catalog in insertion order. -/
def activityKeys : List String := MET_VALUES.map Prod.fst

/-- Dictionary lookup on an association list, modelling `dict.get` (keys in
`MET_VALUES` are unique, so iteration order is irrelevant here). -/
def lookupMet : List (String × ℚ) → String → Option ℚ
  | [], _ => none
  | (k, v) :: rest, a => if k = a then some v else lookupMet rest a

/-- First Activity Catalog key occurring as a substring of the (already
lowercased) text, modelling `next((a for a in MET_VALUES if a in text.lower()), None)`. -/
def findActivity (low : List Char) : Option String :=
  activityKeys.find? (fun a => listSubstr a.data low)

/-- The parser `parse_input(text)`: first the duration regex search on the
lowercased text (raising on failure), then the activity scan (raising on
failure), then `(activity, duration)` with the digits parsed as an integer. -/
def parse_input (text : String) : Except FitnessError (String × Nat) :=
  match findDurationDigits (lowerChars text.data) with
  | none => .error .missingDuration
  | some ds =>
    match findActivity (lowerChars text.data) with
    | none => .error .unknownActivity
    | some a => .ok (a, digitsToNat ds)

/-- Rounding to two decimal places, modelling Python `round(x, 2)`. -/
def round2 (q : ℚ) : ℚ :=
  ((round (100 * q) : ℤ) : ℚ) / 100

/-- Calorie formula `round(met * weight * (duration / 60), 2)` as a function of
the MET value (used to state monotonicity in `met`). -/
def calFormula (met duration weight : ℚ) : ℚ :=
  round2 (met * weight * (duration / 60))

/-- The metrics function `estimate_calories(activity, duration, weight)`:
`met = MET_VALUES.get(activity, 3.5)` then the rounded calorie formula. -/
def estimate_calories (activity : String) (duration weight : ℚ) : ℚ :=
  round2 ((lookupMet MET_VALUES activity).getD 3.5 * weight * (duration / 60))

/-- The metrics function `calculate_bmi(weight, height_cm)`:
`height_m = height_cm / 100`, then `round(weight / height_m ** 2, 2)`.
The Python division raises `ZeroDivisionError` exactly when the divisor
`height_m ** 2` is zero, which the embedding makes explicit. -/
def calculate_bmi (weight height_cm : ℚ) : Except FitnessError ℚ :=
  if (height_cm / 100) ^ 2 = 0 then .error .zeroDivision
  else .ok (round2 (weight / (height_cm / 100) ^ 2))

/-- The classifier `determine_goal(bmi)`. -/
def determine_goal (bmi : ℚ) : String :=
  if bmi < 18.5 then "gain"
  else if bmi ≤ 24.9 then "maintain"
  else "lose"

/-- Knowledge Catalog `HEALTH_KNOWLEDGE_BASE`, in source (insertion) order:
key, description, tips. -/
def HEALTH_KNOWLEDGE_BASE : List (String × String × List String) :=
  [("diabetes",
    "A chronic condition that affects how your body turns food into energy.",
    ["Follow a low-carb, high-fiber diet.",
     "Exercise regularly (e.g., walking, cycling).",
     "Monitor blood sugar daily.",
     "Avoid sugary snacks and beverages."]),
   ("high blood pressure",
    "Also called hypertension; can lead to heart issues if untreated.",
    ["Reduce salt intake.",
     "Exercise daily for 30 minutes.",
     "Avoid smoking and alcohol.",
     "Eat potassium-rich foods like bananas."]),
   ("obesity",
    "A medical condition involving excess body fat.",
    ["Eat in a calorie deficit.",
     "Avoid processed food and sugars.",
     "Drink water before meals.",
     "Walk at least 10,000 steps daily."]),
   ("headache",
    "Pain in the head region, often due to stress, dehydration, or sleep issues.",
    ["Drink plenty of water.",
     "Practice stress-relieving activities like meditation.",
     "Avoid excessive screen time.",
     "Get 7-8 hours of sleep."]),
   ("fatigue",
    "Feeling overtired, with low energy and motivation.",
    ["Ensure consistent sleep schedule (7-8 hrs).",
     "Stay hydrated.",
     "Limit caffeine late in the day.",
     "Take short walks to refresh energy."])]

/-- Keys of the Knowledge Catalog in insertion order. -/
def kbKeys : List String := HEALTH_KNOWLEDGE_BASE.map Prod.fst

/-- Fixed not-found message of `fetch_health_suggestions`. -/
def notFoundMsg : String :=
  "Sorry, we couldn’t find suggestions for that issue. Try general terms like \x27diabetes\x27, \x27headache\x27, or \x27fatigue\x27."

/-- Rendering of a found Knowledge Catalog entry:
`f"**{description}**\n\n**Tips:**\n{tips}"` with the tips joined as `- tip`
lines by `"\n".join(...)`. -/
def formatSuggestion (description : String) (tips : List String) : String :=
  "**" ++ description ++ "**\n\n**Tips:**\n" ++
    String.intercalate "\n" (tips.map (fun tip => "- " ++ tip))

/-- Normalisation `query.lower().strip()` applied by `fetch_health_suggestions`. -/
def normQuery (query : String) : List Char :=
  stripChars (lowerChars query.data)

/-- The lookup `fetch_health_suggestions(query)`: scan Knowledge Catalog keys in
insertion order for the first that is a substring of the normalised query;
render that entry, or return the fixed not-found message. -/
def fetch_health_suggestions (query : String) : String :=
  match HEALTH_KNOWLEDGE_BASE.find? (fun e => listSubstr e.1.data (normQuery query)) with
  | some e => formatSuggestion e.2.1 e.2.2
  | none => notFoundMsg

/-- Specification-side duration pattern, formalising the spec sentence "one or
more digits followed by whitespace and the literal token min or minutes"
as an occurrence (decomposition) predicate.  `requireWs = true` demands at
least one whitespace character between the digits and the token (the literal
reading of the spec); `requireWs = false` allows the whitespace run to be
empty (the behaviour of the regex `\s*`).  Because `minutes` begins with
`min`, a text contains an occurrence ending in `min` or `minutes` exactly
when it contains one ending in `min`. -/
def SpecPattern (requireWs : Bool) (cs : List Char) : Prop :=
  ∃ pre ds ws post, cs = pre ++ ds ++ ws ++ minTok ++ post ∧
    ds ≠ [] ∧ (∀ c ∈ ds, c.isDigit = true) ∧ (∀ c ∈ ws, isSpaceChar c = true) ∧
    (requireWs = true → ws ≠ [])

/-- Boolean scan deciding `SpecPattern`: at every start position, take the
maximal digit run, then the maximal whitespace run, then test for `min`. -/
def matchSpecHere (requireWs : Bool) (cs : List Char) : Bool :=
  !(cs.takeWhile Char.isDigit).isEmpty
    && (!requireWs || !((cs.dropWhile Char.isDigit).takeWhile isSpaceChar).isEmpty)
    && listStartsWith minTok ((cs.dropWhile Char.isDigit).dropWhile isSpaceChar)

/-- Scan of all start positions for `matchSpecHere`. -/
def specScan (requireWs : Bool) : List Char → Bool
  | [] => false
  | c :: tl => matchSpecHere requireWs (c :: tl) || specScan requireWs tl

/-- The duration reported by the parser, characterised spec-side: `n` is the
integer value of the digit portion of the leftmost occurrence of the duration
pattern (leftmost meaning that no decomposition has a shorter prefix). -/
def DurationFirstMatch (cs : List Char) (n : Nat) : Prop :=
  ∃ pre ds ws post, cs = pre ++ ds ++ ws ++ minTok ++ post ∧
    ds ≠ [] ∧ (∀ c ∈ ds, c.isDigit = true) ∧ (∀ c ∈ ws, isSpaceChar c = true) ∧
    n = digitsToNat ds ∧
    ∀ pre' ds' ws' post', cs = pre' ++ ds' ++ ws' ++ minTok ++ post' →
      ds' ≠ [] → (∀ c ∈ ds', c.isDigit = true) → (∀ c ∈ ws', isSpaceChar c = true) →
      pre.length ≤ pre'.length

/-- Auxiliary predicate: the head of `l` (if any) fails `p`. -/
def headFails (p : Char → Bool) : List Char → Prop
  | [] => True
  | c :: _ => p c = false

/-! ### Helper lemmas -/

/-- Characterisation of the initial-segment test. -/
theorem listStartsWith_iff (p l : List Char) : listStartsWith p l = true ↔ ∃ t, l = p ++ t := by
  induction p generalizing l with
  | nil => simp [listStartsWith]
  | cons c cs ih =>
    cases l with
    | nil => simp [listStartsWith]
    | cons d ds =>
      simp only [listStartsWith, Bool.and_eq_true, beq_iff_eq, ih, List.cons_append]
      constructor
      · rintro ⟨rfl, t, rfl⟩; exact ⟨t, rfl⟩
      · rintro ⟨t, ht⟩
        cases ht
        exact ⟨rfl, t, rfl⟩

/-- `takeWhile` of a list whose head fails the predicate is empty. -/
theorem takeWhile_nil_of_headFails {p : Char → Bool} {l : List Char} (h : headFails p l) :
    l.takeWhile p = [] := by
  cases l with
  | nil => rfl
  | cons c tl =>
    unfold headFails at h
    simp [List.takeWhile_cons, h]

/-- `dropWhile` of a list whose head fails the predicate is the list itself. -/
theorem dropWhile_self_of_headFails {p : Char → Bool} {l : List Char} (h : headFails p l) :
    l.dropWhile p = l := by
  cases l with
  | nil => rfl
  | cons c tl =>
    unfold headFails at h
    simp [List.dropWhile_cons, h]

/-- `takeWhile` over an append whose left part wholly satisfies the predicate. -/
theorem takeWhile_append_all {p : Char → Bool} {ds r : List Char}
    (h : ∀ c ∈ ds, p c = true) : (ds ++ r).takeWhile p = ds ++ r.takeWhile p := by
  induction ds with
  | nil => simp
  | cons c tl ih =>
    have hc := h c (by simp)
    simp [List.takeWhile_cons, hc, ih (fun x hx => h x (by simp [hx]))]

/-- `dropWhile` over an append whose left part wholly satisfies the predicate. -/
theorem dropWhile_append_all {p : Char → Bool} {ds r : List Char}
    (h : ∀ c ∈ ds, p c = true) : (ds ++ r).dropWhile p = r.dropWhile p := by
  induction ds with
  | nil => simp
  | cons c tl ih =>
    have hc := h c (by simp)
    simp [List.dropWhile_cons, hc, ih (fun x hx => h x (by simp [hx]))]

/-- Whitespace characters are not digits. -/
theorem space_not_digit {c : Char} (h : isSpaceChar c = true) : c.isDigit = false := by
  simp only [isSpaceChar, Bool.or_eq_true, beq_iff_eq] at h
  rcases h with ((((h | h) | h) | h) | h) | h <;> subst h <;> decide

/-- The head of `ws ++ (minTok ++ post)` is never a digit when `ws` is whitespace. -/
theorem headFails_digit_wsmin {ws : List Char} (post : List Char)
    (hws : ∀ c ∈ ws, isSpaceChar c = true) :
    headFails Char.isDigit (ws ++ (minTok ++ post)) := by
  cases ws with
  | nil =>
    show Char.isDigit 'm' = false
    decide
  | cons w ws2 =>
    show Char.isDigit w = false
    exact space_not_digit (hws w (by simp))

/-- The head of `minTok ++ post` is not whitespace. -/
theorem headFails_space_min (post : List Char) :
    headFails isSpaceChar (minTok ++ post) := by
  show isSpaceChar 'm' = false
  decide


/-- Digit run of the canonical decomposition. -/
theorem decomp_takeWhile_digit {ds ws post : List Char}
    (hdig : ∀ c ∈ ds, c.isDigit = true) (hws : ∀ c ∈ ws, isSpaceChar c = true) :
    (ds ++ (ws ++ (minTok ++ post))).takeWhile Char.isDigit = ds := by
  rw [takeWhile_append_all hdig,
    takeWhile_nil_of_headFails (headFails_digit_wsmin post hws), List.append_nil]

/-- Remainder after the digit run of the canonical decomposition. -/
theorem decomp_dropWhile_digit {ds ws post : List Char}
    (hdig : ∀ c ∈ ds, c.isDigit = true) (hws : ∀ c ∈ ws, isSpaceChar c = true) :
    (ds ++ (ws ++ (minTok ++ post))).dropWhile Char.isDigit = ws ++ (minTok ++ post) := by
  rw [dropWhile_append_all hdig,
    dropWhile_self_of_headFails (headFails_digit_wsmin post hws)]

/-- Whitespace run of the canonical decomposition. -/
theorem decomp_takeWhile_space {ws post : List Char}
    (hws : ∀ c ∈ ws, isSpaceChar c = true) :
    (ws ++ (minTok ++ post)).takeWhile isSpaceChar = ws := by
  rw [takeWhile_append_all hws,
    takeWhile_nil_of_headFails (headFails_space_min post), List.append_nil]

/-- Remainder after the whitespace run of the canonical decomposition. -/
theorem decomp_dropWhile_space {ws post : List Char}
    (hws : ∀ c ∈ ws, isSpaceChar c = true) :
    (ws ++ (minTok ++ post)).dropWhile isSpaceChar = minTok ++ post := by
  rw [dropWhile_append_all hws,
    dropWhile_self_of_headFails (headFails_space_min post)]

/-- An anchored regex match succeeds exactly on the canonical decompositions. -/
theorem matchDurationHere_eq_some {cs ds : List Char} :
    matchDurationHere cs = some ds ↔
      ds ≠ [] ∧ (∀ c ∈ ds, c.isDigit = true) ∧
        ∃ ws post, cs = ds ++ ws ++ minTok ++ post ∧ (∀ c ∈ ws, isSpaceChar c = true) := by
  constructor
  · intro h
    unfold matchDurationHere at h
    by_cases h1 : (cs.takeWhile Char.isDigit).isEmpty = true
    · rw [if_pos h1] at h; cases h
    · rw [if_neg h1] at h
      by_cases h2 : listStartsWith minTok ((cs.dropWhile Char.isDigit).dropWhile isSpaceChar) = true
      · rw [if_pos h2] at h
        obtain rfl : cs.takeWhile Char.isDigit = ds := Option.some.inj h
        refine ⟨?_, fun c hc => List.mem_takeWhile_imp hc, ?_⟩
        · intro hnil
          exact h1 (by rw [hnil]; rfl)
        · obtain ⟨post, hpost⟩ := (listStartsWith_iff _ _).mp h2
          refine ⟨(cs.dropWhile Char.isDigit).takeWhile isSpaceChar, post, ?_,
            fun c hc => List.mem_takeWhile_imp hc⟩
          have hd : cs.dropWhile Char.isDigit =
              (cs.dropWhile Char.isDigit).takeWhile isSpaceChar ++ (minTok ++ post) := by
            rw [← hpost, List.takeWhile_append_dropWhile]
          conv_lhs => rw [← List.takeWhile_append_dropWhile Char.isDigit cs, hd]
          simp [List.append_assoc]
      · rw [if_neg h2] at h; cases h
  · rintro ⟨hne, hdig, ws, post, rfl, hws⟩
    have hp : listStartsWith minTok (minTok ++ post) = true :=
      (listStartsWith_iff _ _).mpr ⟨post, rfl⟩
    have hemp : ds.isEmpty = false := by
      cases ds with
      | nil => exact absurd rfl hne
      | cons c tl => rfl
    simp only [List.append_assoc]
    unfold matchDurationHere
    rw [decomp_takeWhile_digit hdig hws, decomp_dropWhile_digit hdig hws,
      decomp_dropWhile_space hws]
    simp [hemp, hp]

/-- The specification-side anchored match succeeds exactly on the canonical
decompositions (with nonempty whitespace when `requireWs` demands it). -/
theorem matchSpecHere_eq_true {b : Bool} {cs : List Char} :
    matchSpecHere b cs = true ↔
      ∃ ds ws post, cs = ds ++ ws ++ minTok ++ post ∧
        ds ≠ [] ∧ (∀ c ∈ ds, c.isDigit = true) ∧ (∀ c ∈ ws, isSpaceChar c = true) ∧
        (b = true → ws ≠ []) := by
  constructor
  · intro h
    unfold matchSpecHere at h
    simp only [Bool.and_eq_true, Bool.or_eq_true, Bool.not_eq_true'] at h
    obtain ⟨⟨h1, h2⟩, h3⟩ := h
    obtain ⟨post, hpost⟩ := (listStartsWith_iff _ _).mp h3
    refine ⟨cs.takeWhile Char.isDigit, (cs.dropWhile Char.isDigit).takeWhile isSpaceChar,
      post, ?_, ?_, fun c hc => List.mem_takeWhile_imp hc,
      fun c hc => List.mem_takeWhile_imp hc, ?_⟩
    · have hd : cs.dropWhile Char.isDigit =
          (cs.dropWhile Char.isDigit).takeWhile isSpaceChar ++ (minTok ++ post) := by
        rw [← hpost, List.takeWhile_append_dropWhile]
      conv_lhs => rw [← List.takeWhile_append_dropWhile Char.isDigit cs, hd]
      simp [List.append_assoc]
    · intro hnil
      rw [hnil] at h1
      cases h1
    · intro hb hnil
      rcases h2 with h2 | h2
      · rw [hb] at h2; cases h2
      · rw [hnil] at h2; cases h2
  · rintro ⟨ds, ws, post, rfl, hne, hdig, hws, hreq⟩
    have hp : listStartsWith minTok (minTok ++ post) = true :=
      (listStartsWith_iff _ _).mpr ⟨post, rfl⟩
    have hemp : ds.isEmpty = false := by
      cases ds with
      | nil => exact absurd rfl hne
      | cons c tl => rfl
    simp only [List.append_assoc]
    unfold matchSpecHere
    rw [decomp_takeWhile_digit hdig hws, decomp_dropWhile_digit hdig hws,
      decomp_dropWhile_space hws, decomp_takeWhile_space hws]
    cases b with
    | false => simp [hemp, hp]
    | true =>
      have hwemp : ws.isEmpty = false := by
        cases ws with
        | nil => exact absurd rfl (hreq rfl)
        | cons c tl => rfl
      simp [hemp, hp, hwemp]

/-- The empty text contains no duration pattern. -/
theorem specPattern_nil {b : Bool} : ¬ SpecPattern b [] := by
  rintro ⟨pre, ds, ws, post, h, hne, -, -, -⟩
  exact absurd h.symm (by simp [minTok])

/-- The scan decides the specification-side duration pattern. -/
theorem specScan_eq_true {b : Bool} (cs : List Char) :
    specScan b cs = true ↔ SpecPattern b cs := by
  induction cs with
  | nil =>
    simp only [specScan]
    constructor
    · intro h; cases h
    · intro h; exact absurd h specPattern_nil
  | cons c tl ih =>
    simp only [specScan, Bool.or_eq_true, ih]
    constructor
    · rintro (h | h)
      · obtain ⟨ds, ws, post, heq, hne, hdig, hws, hreq⟩ := matchSpecHere_eq_true.mp h
        exact ⟨[], ds, ws, post, by simpa using heq, hne, hdig, hws, hreq⟩
      · obtain ⟨pre, ds, ws, post, heq, hne, hdig, hws, hreq⟩ := h
        exact ⟨c :: pre, ds, ws, post, by simp [heq], hne, hdig, hws, hreq⟩
    · rintro ⟨pre, ds, ws, post, heq, hne, hdig, hws, hreq⟩
      cases pre with
      | nil =>
        exact Or.inl (matchSpecHere_eq_true.mpr
          ⟨ds, ws, post, by simpa using heq, hne, hdig, hws, hreq⟩)
      | cons c2 pre2 =>
        simp only [List.cons_append] at heq
        injection heq with h1 h2
        exact Or.inr ⟨pre2, ds, ws, post, h2, hne, hdig, hws, hreq⟩

/-- The regex search fails exactly when the text contains no occurrence of the
duration pattern (with optional whitespace). -/
theorem findDurationDigits_eq_none {cs : List Char} :
    findDurationDigits cs = none ↔ ¬ SpecPattern false cs := by
  induction cs with
  | nil =>
    constructor
    · intro _; exact specPattern_nil
    · intro _; rfl
  | cons c tl ih =>
    simp only [findDurationDigits]
    cases hm : matchDurationHere (c :: tl) with
    | some ds =>
      simp only
      constructor
      · intro h; cases h
      · intro h
        obtain ⟨hne, hdig, ws, post, heq, hws⟩ := matchDurationHere_eq_some.mp hm
        exact absurd ⟨[], ds, ws, post, by simpa using heq, hne, hdig, hws, by simp⟩ h
    | none =>
      simp only
      rw [ih]
      constructor
      · intro h hp
        obtain ⟨pre, ds, ws, post, heq, hne, hdig, hws, hreq⟩ := hp
        cases pre with
        | nil =>
          have hsome : matchDurationHere (c :: tl) = some ds :=
            matchDurationHere_eq_some.mpr ⟨hne, hdig, ws, post, by simpa using heq, hws⟩
          rw [hm] at hsome; cases hsome
        | cons c2 pre2 =>
          simp only [List.cons_append] at heq
          injection heq with h1 h2
          exact h ⟨pre2, ds, ws, post, h2, hne, hdig, hws, hreq⟩
      · intro h hp
        obtain ⟨pre, ds, ws, post, heq, hne, hdig, hws, hreq⟩ := hp
        exact h ⟨c :: pre, ds, ws, post, by simp [heq], hne, hdig, hws, hreq⟩

/-- A successful regex search returns the digit portion of the leftmost
occurrence of the duration pattern. -/
theorem findDurationDigits_some_first {cs ds : List Char}
    (h : findDurationDigits cs = some ds) :
    DurationFirstMatch cs (digitsToNat ds) := by
  induction cs with
  | nil => cases h
  | cons c tl ih =>
    simp only [findDurationDigits] at h
    cases hm : matchDurationHere (c :: tl) with
    | some ds0 =>
      rw [hm] at h
      simp only at h
      obtain rfl : ds0 = ds := Option.some.inj h
      obtain ⟨hne, hdig, ws, post, heq, hws⟩ := matchDurationHere_eq_some.mp hm
      refine ⟨[], ds0, ws, post, by simpa using heq, hne, hdig, hws, rfl, ?_⟩
      intro pre' ds' ws' post' _ _ _ _
      simp
    | none =>
      rw [hm] at h
      simp only at h
      obtain ⟨pre, ds1, ws, post, heq, hne, hdig, hws, hn, hmin⟩ := ih h
      refine ⟨c :: pre, ds1, ws, post, by simp [heq], hne, hdig, hws, hn, ?_⟩
      intro pre' ds' ws' post' heq' hne' hdig' hws'
      cases pre' with
      | nil =>
        have hsome : matchDurationHere (c :: tl) = some ds' :=
          matchDurationHere_eq_some.mpr ⟨hne', hdig', ws', post', by simpa using heq', hws'⟩
        rw [hm] at hsome; cases hsome
      | cons c2 pre2 =>
        simp only [List.cons_append] at heq'
        injection heq' with h1 h2
        simpa using Nat.succ_le_succ (hmin pre2 ds' ws' post' h2 hne' hdig' hws')

/-- `find?` returns the marked element of a decomposition whose prefix wholly
fails the predicate. -/
theorem find?_eq_some_of_decomp {α : Type} (p : α → Bool) (pre post : List α) (a : α)
    (hp : p a = true) (hpre : ∀ b ∈ pre, p b = false) :
    (pre ++ a :: post).find? p = some a := by
  induction pre with
  | nil => simp [List.find?, hp]
  | cons b pre2 ih =>
    have hb := hpre b (by simp)
    simp only [List.cons_append, List.find?, hb]
    exact ih (fun x hx => hpre x (List.mem_cons_of_mem b hx))

/-- A successful `find?` splits the list at the first satisfying element. -/
theorem find?_some_decomp {α : Type} (p : α → Bool) (l : List α) (a : α)
    (h : l.find? p = some a) :
    ∃ pre post, l = pre ++ a :: post ∧ p a = true ∧ ∀ b ∈ pre, p b = false := by
  induction l with
  | nil => cases h
  | cons b tl ih =>
    cases hpb : p b with
    | true =>
      simp only [List.find?, hpb] at h
      obtain rfl := Option.some.inj h
      exact ⟨[], tl, rfl, hpb, by simp⟩
    | false =>
      simp only [List.find?, hpb] at h
      obtain ⟨pre, post, rfl, hp, hpre⟩ := ih h
      refine ⟨b :: pre, post, by simp, hp, ?_⟩
      intro x hx
      rcases List.mem_cons.mp hx with rfl | hx2
      · exact hpb
      · exact hpre x hx2

/-- Association-list lookup finds the value of a present key when keys are unique. -/
theorem lookupMet_mem {l : List (String × ℚ)} {a : String} {m : ℚ}
    (hnd : (l.map Prod.fst).Nodup) (hmem : (a, m) ∈ l) : lookupMet l a = some m := by
  induction l with
  | nil => cases hmem
  | cons kv tl ih =>
    obtain ⟨k, v⟩ := kv
    simp only [List.map_cons, List.nodup_cons] at hnd
    rcases List.mem_cons.mp hmem with heq | htl
    · obtain ⟨rfl, rfl⟩ := Prod.mk.injEq .. ▸ And.intro (congrArg Prod.fst heq) (congrArg Prod.snd heq)
      simp [lookupMet]
    · have hk : k ≠ a := by
        intro hk
        subst hk
        exact hnd.1 (List.mem_map.mpr ⟨(k, m), htl, rfl⟩)
      simp only [lookupMet, if_neg hk]
      exact ih hnd.2 htl

/-- Association-list lookup misses an absent key. -/
theorem lookupMet_not_mem {l : List (String × ℚ)} {a : String}
    (h : a ∉ l.map Prod.fst) : lookupMet l a = none := by
  induction l with
  | nil => rfl
  | cons kv tl ih =>
    obtain ⟨k, v⟩ := kv
    simp only [List.map_cons, List.mem_cons, not_or] at h
    have hk : k ≠ a := fun hk => h.1 hk.symm
    simp [lookupMet, hk, ih h.2]

/-- Rounding to two decimals is monotone. -/
theorem round2_mono {p q : ℚ} (h : p ≤ q) : round2 p ≤ round2 q := by
  unfold round2
  have hr : round (100 * p) ≤ round (100 * q) := by
    rw [round_eq, round_eq]
    exact Int.floor_mono (by linarith)
  gcongr

/-- Evaluation rule for `round2` from integer bracketing of `100 * q + 1/2`. -/
theorem round2_eq (q : ℚ) (m : ℤ) (h1 : (m : ℚ) ≤ 100 * q + 1/2) (h2 : 100 * q + 1/2 < m + 1) :
    round2 q = (m : ℚ) / 100 := by
  unfold round2
  rw [round_eq, Int.floor_eq_iff.mpr ⟨h1, h2⟩]

/-! ### Claim theorems -/

/-- C1 counterexample: the claim says `calculate_bmi` fails with
`InvalidHeightError` for every `height_cm ≤ 0`, but the code performs no height
check: at `height_cm = -170` it returns the value `24.22` instead of failing. -/
theorem calculate_bmi_neg_height_returns :
    calculate_bmi 70 (-170) = .ok (2422 / 100) := by
  unfold calculate_bmi
  rw [if_neg (by norm_num)]
  rw [round2_eq (70 / ((-170 : ℚ) / 100) ^ 2) 2422 (by norm_num) (by norm_num)]
  norm_num

/-- C1 (amended): `calculate_bmi(weight_kg, height_cm)` fails (with a
division-by-zero error, there is no `InvalidHeightError` in the code) exactly
when `height_cm = 0`; for every `height_cm ≠ 0`, positive or negative, it
returns `round(weight_kg / (height_cm/100)^2, 2)` without failing. -/
theorem calculate_bmi_characterization :
    ∀ weight height_cm : ℚ,
      (height_cm ≠ 0 →
        calculate_bmi weight height_cm = .ok (round2 (weight / (height_cm / 100) ^ 2))) ∧
      calculate_bmi weight 0 = .error .zeroDivision := by
  intro w h
  constructor
  · intro hne
    unfold calculate_bmi
    rw [if_neg (pow_ne_zero 2 (div_ne_zero hne (by norm_num)))]
  · unfold calculate_bmi
    norm_num

/-- Witness for C1 (amended) at weight 70 kg, height 170 cm: BMI 24.22. -/
theorem calculate_bmi_characterization_witness :
    calculate_bmi 70 170 = .ok (2422 / 100) := by
  rw [(calculate_bmi_characterization 70 170).1 (by norm_num)]
  rw [round2_eq (70 / ((170 : ℚ) / 100) ^ 2) 2422 (by norm_num) (by norm_num)]
  norm_num

/-- C4: `determine_goal` returns gain below 18.5, maintain on [18.5, 24.9],
lose above 24.9, with the spec's four sample points. -/
theorem determine_goal_characterization :
    ∀ bmi : ℚ, (bmi < 18.5 → determine_goal bmi = "gain") ∧
      (18.5 ≤ bmi → bmi ≤ 24.9 → determine_goal bmi = "maintain") ∧
      (24.9 < bmi → determine_goal bmi = "lose") ∧
      determine_goal 18.4 = "gain" ∧ determine_goal 18.5 = "maintain" ∧
      determine_goal 24.9 = "maintain" ∧ determine_goal 25 = "lose" := by
  intro bmi
  refine ⟨?_, ?_, ?_, by norm_num [determine_goal], by norm_num [determine_goal],
    by norm_num [determine_goal], by norm_num [determine_goal]⟩
  · intro h
    unfold determine_goal
    rw [if_pos h]
  · intro h1 h2
    unfold determine_goal
    rw [if_neg (not_lt.mpr h1), if_pos h2]
  · intro h
    unfold determine_goal
    rw [if_neg (not_lt.mpr (by linarith)), if_neg (not_le.mpr h)]

/-- Witness for C4 at bmi = 20. -/
theorem determine_goal_characterization_witness :
    determine_goal 20 = "maintain" :=
  (determine_goal_characterization 20).2.1 (by norm_num) (by norm_num)

/-- C5: `estimate_calories` never fails (it is a total function) and returns
`round(met * weight * (duration/60), 2)`, where `met` is the Activity Catalog
value when the key is present and 3.5 otherwise. -/
theorem estimate_calories_characterization :
    ∀ (activity : String) (duration weight met : ℚ),
      ((activity, met) ∈ MET_VALUES →
        estimate_calories activity duration weight =
          round2 (met * weight * (duration / 60))) ∧
      (activity ∉ activityKeys →
        estimate_calories activity duration weight =
          round2 (3.5 * weight * (duration / 60))) := by
  intro a d w m
  constructor
  · intro hmem
    unfold estimate_calories
    rw [lookupMet_mem (by decide) hmem]
    rfl
  · intro hnot
    unfold estimate_calories
    rw [lookupMet_not_mem hnot]
    rfl

/-- Witness for C5: a catalog activity (running, MET 7.5) and an unknown one. -/
theorem estimate_calories_characterization_witness :
    estimate_calories "running" 60 80 = round2 (7.5 * 80 * (60 / 60)) ∧
    estimate_calories "sleeping" 60 80 = round2 (3.5 * 80 * (60 / 60)) :=
  ⟨(estimate_calories_characterization "running" 60 80 7.5).1 (by simp [MET_VALUES]),
   (estimate_calories_characterization "sleeping" 60 80 0).2 (by decide)⟩

/-- C7: `estimate_calories` factors through `calFormula`, which for positive
arguments is monotonically non-decreasing in each of met, weight and duration
separately. -/
theorem estimate_calories_monotone :
    ∀ met met2 weight weight2 duration duration2 : ℚ,
      0 < met → 0 < weight → 0 < duration →
      (∀ activity, estimate_calories activity duration weight =
        calFormula ((lookupMet MET_VALUES activity).getD 3.5) duration weight) ∧
      (met ≤ met2 → calFormula met duration weight ≤ calFormula met2 duration weight) ∧
      (weight ≤ weight2 → calFormula met duration weight ≤ calFormula met duration weight2) ∧
      (duration ≤ duration2 → calFormula met duration weight ≤ calFormula met duration2 weight) := by
  intro m m2 w w2 d d2 hm hw hd
  refine ⟨fun a => rfl, ?_, ?_, ?_⟩
  · intro h
    apply round2_mono
    have h60 : (0 : ℚ) ≤ d / 60 := by positivity
    gcongr
  · intro h
    apply round2_mono
    gcongr
  · intro h
    apply round2_mono
    have h1 : (0 : ℚ) ≤ m * w := by positivity
    gcongr

/-- Witness for C7: raising MET from 3.5 to 7.5 at 70 kg, 30 min. -/
theorem estimate_calories_monotone_witness :
    calFormula 3.5 30 70 ≤ calFormula 7.5 30 70 :=
  (estimate_calories_monotone 3.5 7.5 70 70 30 30 (by norm_num) (by norm_num)
    (by norm_num)).2.1 (by norm_num)

/-- C10: `calculate_bmi` is invariant under flipping the sign of the height,
because the height enters only squared. -/
theorem calculate_bmi_sign_flip :
    ∀ weight height_cm : ℚ, height_cm ≠ 0 →
      calculate_bmi weight height_cm = calculate_bmi weight (-height_cm) := by
  intro w h hne
  unfold calculate_bmi
  rw [show (-h / 100 : ℚ) ^ 2 = (h / 100) ^ 2 by ring]

/-- Witness for C10 at weight 70 kg, height ±170 cm. -/
theorem calculate_bmi_sign_flip_witness :
    calculate_bmi 70 170 = calculate_bmi 70 (-170) :=
  calculate_bmi_sign_flip 70 170 (by norm_num)

/-- C2 counterexample: the claim requires at least one whitespace character
between the digits and the token, but the regex uses `\s*`: on
"30min of running" no digits-whitespace-token occurrence exists, yet the
parser succeeds with duration 30 instead of failing with MissingDurationError. -/
theorem parse_input_nospace_counterexample :
    parse_input "30min of running" = .ok ("running", 30) ∧
    ¬ SpecPattern true (lowerChars "30min of running".data) := by
  refine ⟨rfl, ?_⟩
  intro hp
  rw [← specScan_eq_true] at hp
  exact absurd hp (by decide)

/-- C2 (amended): `parse(text)` fails with MissingDurationError exactly when
the case-insensitive text contains no occurrence of one or more digits followed
by optional whitespace and the token min/minutes; when parse succeeds, the
returned duration is the integer value of the digit portion of the leftmost
such occurrence. -/
theorem parse_input_duration_characterization :
    ∀ text : String,
      (parse_input text = .error .missingDuration ↔
        ¬ SpecPattern false (lowerChars text.data)) ∧
      (∀ a n, parse_input text = .ok (a, n) →
        DurationFirstMatch (lowerChars text.data) n) := by
  intro t
  constructor
  · rw [← findDurationDigits_eq_none]
    unfold parse_input
    cases hf : findDurationDigits (lowerChars t.data) with
    | none => simp
    | some ds =>
      cases ha : findActivity (lowerChars t.data) with
      | none => simp
      | some a => simp
  · intro a n hok
    unfold parse_input at hok
    cases hf : findDurationDigits (lowerChars t.data) with
    | none =>
      simp only [hf] at hok
      exact absurd hok (by simp)
    | some ds =>
      simp only [hf] at hok
      cases ha : findActivity (lowerChars t.data) with
      | none =>
        simp only [ha] at hok
        exact absurd hok (by simp)
      | some a2 =>
        simp only [ha] at hok
        injection hok with h
        cases h
        exact findDurationDigits_some_first hf

/-- Witness for C2 (amended): the spec's own example sentence. -/
theorem parse_input_duration_characterization_witness :
    DurationFirstMatch (lowerChars "I did 30 minutes of cycling".data) 30 :=
  (parse_input_duration_characterization "I did 30 minutes of cycling").2 "cycling" 30 rfl

/-- C3: once a duration is found, `parse` returns the first Activity Catalog
key (in catalog insertion order: walking, running, ..., basketball) occurring
as a substring of the lowercased text, and fails with UnknownActivityError
exactly when no catalog key occurs as a substring. -/
theorem parse_input_activity_characterization :
    ∀ text : String, findDurationDigits (lowerChars text.data) ≠ none →
      (activityKeys = ["walking", "running", "cycling", "swimming", "yoga", "weights",
        "dancing", "aerobics", "hiking", "jumping rope", "rowing", "riding", "skating",
        "football", "basketball"]) ∧
      (parse_input text = .error .unknownActivity ↔
        ∀ a ∈ activityKeys, listSubstr a.data (lowerChars text.data) = false) ∧
      (∀ a n, parse_input text = .ok (a, n) →
        ∃ pre post, activityKeys = pre ++ a :: post ∧
          listSubstr a.data (lowerChars text.data) = true ∧
          ∀ b ∈ pre, listSubstr b.data (lowerChars text.data) = false) := by
  intro t hne
  have hex : ∃ ds, findDurationDigits (lowerChars t.data) = some ds := by
    cases hf : findDurationDigits (lowerChars t.data) with
    | none => exact absurd hf hne
    | some ds => exact ⟨ds, rfl⟩
  obtain ⟨ds, hf⟩ := hex
  refine ⟨rfl, ?_, ?_⟩
  · unfold parse_input
    cases ha : findActivity (lowerChars t.data) with
    | none =>
      simp only [hf]
      unfold findActivity at ha
      constructor
      · intro _ a hmem
        simpa using List.find?_eq_none.mp ha a hmem
      · intro _
        trivial
    | some a0 =>
      simp only [hf]
      unfold findActivity at ha
      constructor
      · intro h
        cases h
      · intro hall
        have hp := List.find?_some ha
        have hmem := List.mem_of_find?_eq_some ha
        rw [hall a0 hmem] at hp
        cases hp
  · intro a n hok
    unfold parse_input at hok
    simp only [hf] at hok
    cases ha : findActivity (lowerChars t.data) with
    | none =>
      simp only [ha] at hok
      exact absurd hok (by simp)
    | some a0 =>
      simp only [ha] at hok
      injection hok with h
      cases h
      unfold findActivity at ha
      exact find?_some_decomp _ _ _ ha

/-- Witness for C3: the spec's unknown-activity example. -/
theorem parse_input_activity_characterization_witness :
    parse_input "45 min of something unknown" = .error .unknownActivity :=
  ((parse_input_activity_characterization "45 min of something unknown"
    (by decide)).2.1).mpr (by decide)

/-- C8: the duration check precedes the activity check — when text has neither
a duration pattern nor a catalog activity, parse fails with
MissingDurationError, never UnknownActivityError. -/
theorem parse_input_missing_duration_first :
    ∀ text : String, findDurationDigits (lowerChars text.data) = none →
      findActivity (lowerChars text.data) = none →
      parse_input text = .error .missingDuration := by
  intro t hf ha
  unfold parse_input
  simp [hf]

/-- Witness for C8: the spec's example "workout". -/
theorem parse_input_missing_duration_first_witness :
    parse_input "workout" = .error .missingDuration :=
  parse_input_missing_duration_first "workout" (by decide) (by decide)

/-- C9: parse accepts a zero duration — a text whose first duration match has
digit portion "0" and which contains a catalog activity parses successfully
with duration 0. -/
theorem parse_input_zero_duration :
    ∀ (text : String) (a : String),
      findDurationDigits (lowerChars text.data) = some ['0'] →
      findActivity (lowerChars text.data) = some a →
      parse_input text = .ok (a, 0) := by
  intro t a hf ha
  unfold parse_input
  simp only [hf, ha]
  rfl

/-- Witness for C9: "I did 0 minutes of running" parses to duration 0. -/
theorem parse_input_zero_duration_witness :
    parse_input "I did 0 minutes of running" = .ok ("running", 0) :=
  parse_input_zero_duration "I did 0 minutes of running" "running" (by decide) (by decide)

/-- C6: `health_suggestion` lowercases and trims the query, scans Knowledge
Catalog keys in insertion order (diabetes, high blood pressure, obesity,
headache, fatigue), renders the first matching entry as its description
followed by one "- tip" line per tip in catalog order, returns the fixed
not-found message when no key matches, and on "I have a headache and fatigue"
returns the headache entry. -/
theorem fetch_health_suggestions_characterization :
    ∀ query : String,
      (kbKeys = ["diabetes", "high blood pressure", "obesity", "headache", "fatigue"]) ∧
      ((∀ k ∈ kbKeys, listSubstr k.data (normQuery query) = false) →
        fetch_health_suggestions query = notFoundMsg) ∧
      (∀ key description tips pre post,
        HEALTH_KNOWLEDGE_BASE = pre ++ (key, description, tips) :: post →
        listSubstr key.data (normQuery query) = true →
        (∀ e ∈ pre, listSubstr e.1.data (normQuery query) = false) →
        fetch_health_suggestions query =
          "**" ++ description ++ "**\n\n**Tips:**\n" ++
            String.intercalate "\n" (tips.map (fun tip => "- " ++ tip))) ∧
      fetch_health_suggestions "I have a headache and fatigue" =
        "**Pain in the head region, often due to stress, dehydration, or sleep issues.**\n\n**Tips:**\n- Drink plenty of water.\n- Practice stress-relieving activities like meditation.\n- Avoid excessive screen time.\n- Get 7-8 hours of sleep." := by
  intro q
  refine ⟨rfl, ?_, ?_, rfl⟩
  · intro hall
    unfold fetch_health_suggestions
    have hnone : HEALTH_KNOWLEDGE_BASE.find? (fun e => listSubstr e.1.data (normQuery q)) = none := by
      apply List.find?_eq_none.mpr
      intro e he
      simpa using hall e.1 (List.mem_map_of_mem Prod.fst he)
    rw [hnone]
  · intro key description tips pre post hsplit hkey hpre
    unfold fetch_health_suggestions
    rw [hsplit, find?_eq_some_of_decomp _ pre post (key, description, tips) hkey
      (fun b hb => hpre b hb)]
    rfl

/-- Witness for C6: the obesity entry is found and rendered for a query
containing "obesity". -/
theorem fetch_health_suggestions_characterization_witness :
    fetch_health_suggestions "obesity advice" =
      "**A medical condition involving excess body fat.**\n\n**Tips:**\n- Eat in a calorie deficit.\n- Avoid processed food and sugars.\n- Drink water before meals.\n- Walk at least 10,000 steps daily." := by
  have h := (fetch_health_suggestions_characterization "obesity advice").2.2.1
    "obesity" "A medical condition involving excess body fat."
    ["Eat in a calorie deficit.", "Avoid processed food and sugars.",
     "Drink water before meals.", "Walk at least 10,000 steps daily."]
    (HEALTH_KNOWLEDGE_BASE.take 2) (HEALTH_KNOWLEDGE_BASE.drop 3)
    rfl (by decide) (by decide)
  exact h
